import Mathlib

/-!
Verification of the grid simulation engine of game.js: the cell-state model,
the flood-fill region solver, the motion and reflection rules for the drone
and the two enemy kinds, and the per-frame capture/death state machine.
JavaScript numbers are modelled as exact rationals, the square grid of side
`GRID_SIZE` as a total function on integer coordinates whose relevant part
is the block of in-bounds cells, imperative in-place updates as pointwise
functional updates, and the audio/UI hooks as emitted signals.
-/

attribute [local semireducible] Rat.add Rat.mul Rat.inv Rat.sub

namespace X1

/-- Cell states of the grid, mirroring CELL_TYPE in game.js. -/
inductive Cell
  | empty
  | occupied
  | trail
deriving DecidableEq

/-- Enemy kinds, mirroring the type tag of Enemy in game.js. -/
inductive EnemyKind
  | ball
  | mine
deriving DecidableEq

/-- Signals surfaced to the external collaborators: the audio hooks
playTrailStep, playCapture, playDeath, playWin and the game-over message
of game.js. -/
inductive Signal
  | trailStep
  | capture
  | death
  | levelComplete
  | gameOver
deriving DecidableEq

/-- A cell coordinate (x, z); the grid of game.js is indexed grid[z][x]. -/
abbrev Pos := ℤ × ℤ

/-- Capture target threshold, TARGET_PERCENT in game.js. -/
def TARGET_PERCENT : ℤ := 80

/-- Bounds test 0 ≤ x < N and 0 ≤ z < N used throughout game.js. -/
def inBounds (N : ℕ) (c : Pos) : Prop :=
  0 ≤ c.1 ∧ c.1 < (N : ℤ) ∧ 0 ≤ c.2 ∧ c.2 < (N : ℤ)

instance (N : ℕ) (c : Pos) : Decidable (inBounds N c) :=
  inferInstanceAs (Decidable (0 ≤ c.1 ∧ c.1 < (N : ℤ) ∧ 0 ≤ c.2 ∧ c.2 < (N : ℤ)))

/-- State of a hostile entity (class Enemy in game.js): continuous position,
velocity, kind tag and speed scalar. -/
structure EnemyState where
  x : ℚ
  z : ℚ
  vx : ℚ
  vz : ℚ
  kind : EnemyKind
  speed : ℚ
deriving DecidableEq

/-- State of the controlled unit (class Drone in game.js). -/
structure DroneState where
  x : ℚ
  z : ℚ
  vx : ℚ
  vz : ℚ
  lastX : ℤ
  lastZ : ℤ
  speed : ℚ
deriving DecidableEq

/-- Engine state (the engine-relevant fields of class Game in game.js).
`paused` models whether the message overlay is visible, which suspends the
per-frame logic of Game.animate. -/
structure GameState where
  level : ℕ
  lives : ℤ
  capturedPercent : ℤ
  grid : ℤ → ℤ → Cell
  enemies : List EnemyState
  trailCount : ℕ
  drone : DroneState
  paused : Bool

/-- Whether some enemy's truncated position is the cell c, the test
enemies.some(e => Math.floor(e.x) === cx && Math.floor(e.z) === cy)
of FloodFill.getFillableAreas. -/
def hostsEnemy (es : List EnemyState) (c : Pos) : Bool :=
  es.any fun e => decide (⌊e.x⌋ = c.1 ∧ ⌊e.z⌋ = c.2)

/-- The four axis neighbours of a cell, in the order game.js lists them. -/
def nbrs (c : Pos) : List Pos :=
  [(c.1 + 1, c.2), (c.1 - 1, c.2), (c.1, c.2 + 1), (c.1, c.2 - 1)]

/-- The in-bounds cells of the grid, as a finite set (used to measure
progress of the flood fill; the source relies on the finite visited array). -/
def allCells (N : ℕ) : Finset Pos :=
  Finset.Icc (0 : ℤ) ((N : ℤ) - 1) ×ˢ Finset.Icc (0 : ℤ) ((N : ℤ) - 1)

/-- Number of in-bounds cells not yet visited. -/
def ucount (N : ℕ) (vis : Finset Pos) : ℕ :=
  ((allCells N).filter fun c => c ∉ vis).card

namespace FloodFill

/-- Inner neighbour loop of the BFS in FloodFill.getFillableAreas: each
in-bounds unvisited EMPTY neighbour is marked visited and appended to the
queue. -/
def pushNbrs (N : ℕ) (grid : ℤ → ℤ → Cell) :
    List Pos → Finset Pos → List Pos → Finset Pos × List Pos
  | [], vis, q => (vis, q)
  | n :: rest, vis, q =>
    if inBounds N n ∧ grid n.2 n.1 = Cell.empty ∧ n ∉ vis then
      pushNbrs N grid rest (insert n vis) (q ++ [n])
    else
      pushNbrs N grid rest vis q

/-- The while (queue.length > 0) loop of FloodFill.getFillableAreas:
dequeue a cell, append it to the area, record whether an enemy sits on it,
then process its neighbours. Structural fuel stands in for the termination
measure; getFillableAreas supplies enough fuel that it is never exhausted. -/
def bfs (N : ℕ) (grid : ℤ → ℤ → Cell) (es : List EnemyState) :
    ℕ → Finset Pos → List Pos → List Pos → Bool → List Pos × Bool × Finset Pos
  | 0, vis, _, area, he => (area, he, vis)
  | _ + 1, vis, [], area, he => (area, he, vis)
  | fuel + 1, vis, c :: rest, area, he =>
    let vq := pushNbrs N grid (nbrs c) vis rest
    bfs N grid es fuel vq.1 vq.2 (area ++ [c]) (he || hostsEnemy es c)

/-- Row-major scan order of the outer double loop (y outer, x inner). -/
def scanCells (N : ℕ) : List Pos :=
  (List.range N).flatMap fun y => (List.range N).map fun x => (Int.ofNat x, Int.ofNat y)

/-- Outer loop of FloodFill.getFillableAreas: seed a BFS at every unvisited
EMPTY cell in scan order and keep the grown area when it contains no enemy. -/
def fillLoop (N : ℕ) (grid : ℤ → ℤ → Cell) (es : List EnemyState) :
    List Pos → Finset Pos → List (List Pos) → List (List Pos) × Finset Pos
  | [], vis, areas => (areas, vis)
  | c :: rest, vis, areas =>
    if grid c.2 c.1 = Cell.empty ∧ c ∉ vis then
      let r := bfs N grid es (N * N) (insert c vis) [c] [] false
      fillLoop N grid es rest r.2.2 (if r.2.1 then areas else areas ++ [r.1])
    else
      fillLoop N grid es rest vis areas

/-- FloodFill.getFillableAreas of game.js: the connected EMPTY regions that
contain no hostile entity's truncated position. -/
def getFillableAreas (N : ℕ) (grid : ℤ → ℤ → Cell) (es : List EnemyState) :
    List (List Pos) :=
  (fillLoop N grid es (scanCells N) ∅ []).1

end FloodFill

/-- An in-bounds EMPTY cell. -/
def emptyCell (N : ℕ) (grid : ℤ → ℤ → Cell) (c : Pos) : Prop :=
  inBounds N c ∧ grid c.2 c.1 = Cell.empty

instance (N : ℕ) (grid : ℤ → ℤ → Cell) (c : Pos) : Decidable (emptyCell N grid c) :=
  inferInstanceAs (Decidable (inBounds N c ∧ grid c.2 c.1 = Cell.empty))

/-- One 4-connectivity step between EMPTY cells. -/
def stepE (N : ℕ) (grid : ℤ → ℤ → Cell) (c d : Pos) : Prop :=
  emptyCell N grid c ∧ emptyCell N grid d ∧ d ∈ nbrs c

/-- 4-connectivity through EMPTY cells (reflexive-transitive closure). -/
def reachE (N : ℕ) (grid : ℤ → ℤ → Cell) : Pos → Pos → Prop :=
  Relation.ReflTransGen (stepE N grid)

namespace Drone

/-- Drone.update of game.js, restricted to its engine content: move to the
tentative position unless it leaves [0, N) on either axis (hard wall). -/
def update (N : ℕ) (d : DroneState) : DroneState :=
  let nextX := d.x + d.vx
  let nextZ := d.z + d.vz
  if 0 ≤ nextX ∧ nextX < (N : ℚ) ∧ 0 ≤ nextZ ∧ nextZ < (N : ℚ) then
    { d with x := nextX, z := nextZ }
  else
    d

/-- Drone.reset of game.js: reposition and zero the velocity. -/
def reset (d : DroneState) (x z : ℚ) : DroneState :=
  { d with x := x, z := z, vx := 0, vz := 0, lastX := ⌊x⌋, lastZ := ⌊z⌋ }

/-- A drone position inside [0, N) × [0, N). -/
def inBox (N : ℕ) (d : DroneState) : Prop :=
  0 ≤ d.x ∧ d.x < (N : ℚ) ∧ 0 ≤ d.z ∧ d.z < (N : ℚ)

instance (N : ℕ) (d : DroneState) : Decidable (inBox N d) :=
  inferInstanceAs (Decidable (0 ≤ d.x ∧ d.x < (N : ℚ) ∧ 0 ≤ d.z ∧ d.z < (N : ℚ)))

/-- A run of the controlled unit: before each frame the input sets the
velocity intent, then Drone.update advances one step. -/
def run (N : ℕ) (d : DroneState) (inputs : List (ℚ × ℚ)) : DroneState :=
  inputs.foldl (fun st v => update N { st with vx := v.1, vz := v.2 }) d

end Drone

namespace Enemy

/-- Reflect condition on the tested cell, by entity kind: a ball reflects off
OCCUPIED cells, a mine off anything other than OCCUPIED (the two if-branches
of Enemy.update in game.js). -/
def reflTest : EnemyKind → Cell → Prop
  | EnemyKind.ball, c => c = Cell.occupied
  | EnemyKind.mine, c => ¬ c = Cell.occupied

instance : (k : EnemyKind) → (c : Cell) → Decidable (reflTest k c)
  | EnemyKind.ball, c => inferInstanceAs (Decidable (c = Cell.occupied))
  | EnemyKind.mine, c => inferInstanceAs (Decidable (¬ c = Cell.occupied))

/-- Enemy.update of game.js: per-axis tentative cells are tested against the
reflect condition of the entity's kind, both kinds also reflecting out of
bounds; on reflect the velocity component is inverted and the tentative
position for that axis is recomputed once; the entity always moves to the
resulting position. The x-axis test reads the grid at the current z row, the
z-axis test at the current x column, exactly as in the source. -/
def update (N : ℕ) (grid : ℤ → ℤ → Cell) (e : EnemyState) : EnemyState :=
  let nextX := e.x + e.vx
  let nextZ := e.z + e.vz
  let gridX := ⌊nextX⌋
  let gridZ := ⌊nextZ⌋
  let reflX := gridX < 0 ∨ (N : ℤ) ≤ gridX ∨ reflTest e.kind (grid ⌊e.z⌋ gridX)
  let vx2 := if reflX then -e.vx else e.vx
  let nx2 := if reflX then e.x + vx2 else nextX
  let reflZ := gridZ < 0 ∨ (N : ℤ) ≤ gridZ ∨ reflTest e.kind (grid gridZ ⌊e.x⌋)
  let vz2 := if reflZ then -e.vz else e.vz
  let nz2 := if reflZ then e.z + vz2 else nextZ
  { e with x := nx2, z := nz2, vx := vx2, vz := vz2 }

/-- The ball step as the claim characterizes it: the x-velocity is inverted
exactly when the tentative x-cell is out of bounds or the cell at the current
z row and tentative x column is OCCUPIED (symmetrically for z), and the new
position is the tentative position recomputed once from the final velocity. -/
def ballStepChar (N : ℕ) (grid : ℤ → ℤ → Cell) (e : EnemyState) : EnemyState :=
  let gx := ⌊e.x + e.vx⌋
  let gz := ⌊e.z + e.vz⌋
  let rx := gx < 0 ∨ (N : ℤ) ≤ gx ∨ grid ⌊e.z⌋ gx = Cell.occupied
  let rz := gz < 0 ∨ (N : ℤ) ≤ gz ∨ grid gz ⌊e.x⌋ = Cell.occupied
  let vx2 := if rx then -e.vx else e.vx
  let vz2 := if rz then -e.vz else e.vz
  { e with x := e.x + vx2, z := e.z + vz2, vx := vx2, vz := vz2 }

/-- The mine step as the claim characterizes it: a component is inverted
exactly when the tested cell is out of bounds or anything other than
OCCUPIED, and the new position is the tentative position recomputed once
from the final velocity. -/
def mineStepChar (N : ℕ) (grid : ℤ → ℤ → Cell) (e : EnemyState) : EnemyState :=
  let gx := ⌊e.x + e.vx⌋
  let gz := ⌊e.z + e.vz⌋
  let rx := gx < 0 ∨ (N : ℤ) ≤ gx ∨ ¬ grid ⌊e.z⌋ gx = Cell.occupied
  let rz := gz < 0 ∨ (N : ℤ) ≤ gz ∨ ¬ grid gz ⌊e.x⌋ = Cell.occupied
  let vx2 := if rx then -e.vx else e.vx
  let vz2 := if rz then -e.vz else e.vz
  { e with x := e.x + vx2, z := e.z + vz2, vx := vx2, vz := vz2 }

end Enemy

namespace Game

/-- Game.initGrid of game.js: every in-bounds cell starts EMPTY except the
outer two-cell-thick border, which starts OCCUPIED. -/
def initGrid (N : ℕ) : ℤ → ℤ → Cell :=
  fun z x =>
    if inBounds N (x, z) ∧ (x < 2 ∨ (N : ℤ) - 2 ≤ x ∨ z < 2 ∨ (N : ℤ) - 2 ≤ z) then
      Cell.occupied
    else
      Cell.empty

/-- The fillAreas.forEach loop of Game.handleCapture: every cell of every
returned area is set to OCCUPIED. -/
def applyAreas (areas : List (List Pos)) (g : ℤ → ℤ → Cell) : ℤ → ℤ → Cell :=
  fun z x => if ∃ a ∈ areas, (x, z) ∈ a then Cell.occupied else g z x

/-- The trail-conversion double loop of Game.handleCapture: every in-bounds
TRAIL cell becomes OCCUPIED. -/
def convertTrail (N : ℕ) (g : ℤ → ℤ → Cell) : ℤ → ℤ → Cell :=
  fun z x => if inBounds N (x, z) ∧ g z x = Cell.trail then Cell.occupied else g z x

/-- The trail-clearing double loop of Game.die: every in-bounds TRAIL cell
becomes EMPTY. -/
def clearTrail (N : ℕ) (g : ℤ → ℤ → Cell) : ℤ → ℤ → Cell :=
  fun z x => if inBounds N (x, z) ∧ g z x = Cell.trail then Cell.empty else g z x

/-- Number of in-bounds OCCUPIED cells (the counting loop of
Game.calculateCaptured). -/
def occupiedCount (N : ℕ) (g : ℤ → ℤ → Cell) : ℕ :=
  ((allCells N).filter fun c => g c.2 c.1 = Cell.occupied).card

/-- The percentage computed by Game.calculateCaptured:
Math.floor(occupied / (GRID_SIZE * GRID_SIZE) * 100). -/
def capturedPercentOf (N : ℕ) (g : ℤ → ℤ → Cell) : ℤ :=
  ⌊(occupiedCount N g : ℚ) / ((N : ℚ) * (N : ℚ)) * 100⌋

/-- Game.calculateCaptured of game.js: recompute the captured percentage and,
when it reaches TARGET_PERCENT, play the win sound and show the level-end
message (modelled as the levelComplete signal plus pausing the loop). -/
def calculateCaptured (N : ℕ) (s : GameState) : GameState × List Signal :=
  let pct := capturedPercentOf N s.grid
  if TARGET_PERCENT ≤ pct then
    ({ s with capturedPercent := pct, paused := true }, [Signal.levelComplete])
  else
    ({ s with capturedPercent := pct }, [])

/-- Game.die of game.js: play the death sound (one death signal), decrement
lives, clear all TRAIL cells to EMPTY, reset the trail counter, reposition
the drone at (1, 1), and on lives ≤ 0 show the game-over message. -/
def die (N : ℕ) (s : GameState) : GameState × List Signal :=
  let s2 := { s with lives := s.lives - 1, grid := clearTrail N s.grid,
                     trailCount := 0, drone := Drone.reset s.drone 1 1 }
  if s2.lives ≤ 0 then
    ({ s2 with paused := true }, [Signal.death, Signal.gameOver])
  else
    (s2, [Signal.death])

/-- Game.handleCapture of game.js: play the capture sound, run the flood
fill over the current grid and enemies, mark every returned area OCCUPIED,
then convert all TRAIL cells to OCCUPIED, reset the trail counter and
recompute the captured percentage. -/
def handleCapture (N : ℕ) (s : GameState) : GameState × List Signal :=
  let areas := FloodFill.getFillableAreas N s.grid s.enemies
  let g2 := convertTrail N (applyAreas areas s.grid)
  let r := calculateCaptured N { s with grid := g2, trailCount := 0 }
  (r.1, Signal.capture :: r.2)

/-- The cell-change logic of Game.animate (lines 607-628 of game.js), run on
the already-moved drone: when the drone's integer cell differs from its last
recorded cell, an EMPTY cell becomes TRAIL, an OCCUPIED cell with a pending
trail triggers handleCapture, and a TRAIL cell triggers die; in all cases the
last recorded cell is then set to the new cell. -/
def cellCheck (N : ℕ) (s : GameState) : GameState × List Signal :=
  let gx := ⌊s.drone.x⌋
  let gz := ⌊s.drone.z⌋
  if gx ≠ s.drone.lastX ∨ gz ≠ s.drone.lastZ then
    let r :=
      if s.grid gz gx = Cell.empty then
        ({ s with grid := fun z x => if z = gz ∧ x = gx then Cell.trail else s.grid z x,
                  trailCount := s.trailCount + 1 }, [Signal.trailStep])
      else if s.grid gz gx = Cell.occupied then
        if 0 < s.trailCount then handleCapture N s else (s, [])
      else
        die N s
    ({ r.1 with drone := { r.1.drone with lastX := gx, lastZ := gz } }, r.2)
  else
    (s, [])

/-- The drone part of one frame of Game.animate: move the drone, then run the
cell-change logic. -/
def dronePhase (N : ℕ) (s : GameState) : GameState × List Signal :=
  cellCheck N { s with drone := Drone.update N s.drone }

/-- The collision checks run for one enemy inside the enemies.forEach loop of
Game.animate, after that enemy has moved: die when the squared distance to
the drone is below 0.8², then die when the enemy's current cell is TRAIL. -/
def enemyCollision (N : ℕ) (s : GameState) (e : EnemyState) : GameState × List Signal :=
  let r1 :=
    if (e.x - s.drone.x) * (e.x - s.drone.x) + (e.z - s.drone.z) * (e.z - s.drone.z) < 16 / 25 then
      die N s
    else
      (s, [])
  let r2 := if r1.1.grid ⌊e.z⌋ ⌊e.x⌋ = Cell.trail then die N r1.1 else (r1.1, [])
  (r2.1, r1.2 ++ r2.2)

/-- One iteration of the enemies.forEach loop of Game.animate: the enemy
moves against the current grid, then its collision checks run. -/
def processEnemy (N : ℕ) (s : GameState) (e : EnemyState) : (GameState × List Signal) × EnemyState :=
  let e2 := Enemy.update N s.grid e
  (enemyCollision N s e2, e2)

/-- The enemies.forEach loop of Game.animate: each enemy in order moves and
is checked, threading the game state (a death inside the loop already clears
the trail seen by later enemies, as in the source). -/
def enemiesPhase (N : ℕ) (s : GameState) : GameState × List Signal :=
  let r := s.enemies.foldl
    (fun acc e =>
      let p := processEnemy N acc.1 e
      (p.1.1, acc.2.1 ++ p.1.2, acc.2.2 ++ [p.2]))
    (s, [], [])
  ({ r.1 with enemies := r.2.2 }, r.2.1)

/-- One frame of the game loop Game.animate of game.js, restricted to its
engine content: when the message overlay is hidden, move the drone and run
its cell logic, then run every enemy's motion and collision checks. -/
def animateTick (N : ℕ) (s : GameState) : GameState × List Signal :=
  if s.paused then
    (s, [])
  else
    let p := dronePhase N s
    let q := enemiesPhase N p.1
    (q.1, p.2 ++ q.2)

/-- Definition following the spec's words on intra-tick ordering: motion is
fully resolved for the controlled unit and all hostile entities before any
capture or death check runs. Written only to compare the specified ordering
with the implemented one; game.js does not behave like this. -/
def tickSpecMotionFirst (N : ℕ) (s : GameState) : GameState × List Signal :=
  if s.paused then
    (s, [])
  else
    let s1 := { s with drone := Drone.update N s.drone,
                       enemies := s.enemies.map (Enemy.update N s.grid) }
    let p := cellCheck N s1
    p.1.enemies.foldl
      (fun acc e =>
        let r := enemyCollision N acc.1 e
        (r.1, acc.2 ++ r.2))
      (p.1, p.2)

/-- A run of the engine: before each frame the keyboard input sets the
drone's velocity intent, then one frame of Game.animate executes. -/
def runWith (N : ℕ) (inputs : List (ℚ × ℚ)) (s : GameState) : GameState :=
  inputs.foldl
    (fun st v => (animateTick N { st with drone := { st.drone with vx := v.1, vz := v.2 } }).1) s

/-- Number of death signals in a signal list. -/
def deathCount (sigs : List Signal) : ℕ :=
  sigs.count Signal.death

end Game

/-- Whether every in-bounds cell of the outer two-cell-thick border is
OCCUPIED. -/
def borderOccupied (N : ℕ) (g : ℤ → ℤ → Cell) : Prop :=
  ∀ z x : ℤ, inBounds N (x, z) →
    (x < 2 ∨ (N : ℤ) - 2 ≤ x ∨ z < 2 ∨ (N : ℤ) - 2 ≤ z) → g z x = Cell.occupied

/-! Concrete states used to instantiate the theorems below. -/

/-- A 6×6 grid whose only EMPTY cells are the 2×2 block at (2,2)-(3,3). -/
def exGrid : ℤ → ℤ → Cell :=
  fun z x => if 2 ≤ x ∧ x < 4 ∧ 2 ≤ z ∧ z < 4 then Cell.empty else Cell.occupied

/-- A fully OCCUPIED grid. -/
def exGridFull : ℤ → ℤ → Cell :=
  fun _ _ => Cell.occupied

/-- An 8×8 grid with one EMPTY cell at (3,3) and one TRAIL cell at (1,4). -/
def exGrid9 : ℤ → ℤ → Cell :=
  fun z x =>
    if x = 3 ∧ z = 3 then Cell.empty
    else if x = 1 ∧ z = 4 then Cell.trail
    else Cell.occupied

/-- A 6×6 grid with a single TRAIL cell at (3,3), everything else OCCUPIED. -/
def exGridT : ℤ → ℤ → Cell :=
  fun z x => if x = 3 ∧ z = 3 then Cell.trail else Cell.occupied

/-- A drone at (1.9, 2) moving right, about to cross from cell (1,2) into
cell (2,2). -/
def exDroneCross : DroneState :=
  { x := 19/10, z := 2, vx := 1/5, vz := 0, lastX := 1, lastZ := 2, speed := 3/20 }

/-- State on grid exGridT with a pending one-cell trail: the drone crossing
into OCCUPIED (2,2) must trigger a capture event. -/
def exStateCapture : GameState :=
  { level := 1, lives := 3, capturedPercent := 97, grid := exGridT,
    enemies := [], trailCount := 1, drone := exDroneCross, paused := false }

/-- State on grid exGrid with no trail: an enemy-free EMPTY region exists. -/
def exStateRegion : GameState :=
  { level := 1, lives := 3, capturedPercent := 88, grid := exGrid,
    enemies := [], trailCount := 0,
    drone := { x := 1, z := 1, vx := 0, vz := 0, lastX := 1, lastZ := 1, speed := 3/20 },
    paused := false }

/-- State on the fully OCCUPIED grid with no trail and a matching
captured percentage. -/
def exStateFull : GameState :=
  { level := 1, lives := 3, capturedPercent := 100, grid := exGridFull,
    enemies := [], trailCount := 0,
    drone := { x := 1, z := 1, vx := 0, vz := 0, lastX := 1, lastZ := 1, speed := 3/20 },
    paused := false }

/-- State with a nonzero drone velocity intent, used for the death event. -/
def exStateVel : GameState :=
  { level := 1, lives := 3, capturedPercent := 100, grid := exGridFull,
    enemies := [], trailCount := 0,
    drone := { x := 5/2, z := 2, vx := 1/4, vz := 0, lastX := 2, lastZ := 2, speed := 3/20 },
    paused := false }

/-- State on exGrid9 with a fast ball inside the region at (3,3) that leaves
it during the frame, and the drone triggering a capture: the implemented
ordering and the motion-first ordering capture different regions. -/
def exStateOrder : GameState :=
  { level := 1, lives := 3, capturedPercent := 96, grid := exGrid9,
    enemies := [{ x := 7/2, z := 3, vx := -13/10, vz := 0, kind := EnemyKind.ball, speed := 13/10 }],
    trailCount := 1, drone := exDroneCross, paused := false }

/-- A ball about to step into an OCCUPIED cell on the x axis. -/
def exBall : EnemyState :=
  { x := 5/2, z := 3, vx := 3/5, vz := 0, kind := EnemyKind.ball, speed := 3/5 }

/-- A mine about to leave OCCUPIED territory on the x axis. -/
def exMine : EnemyState :=
  { x := 5/2, z := 3, vx := 3/5, vz := 0, kind := EnemyKind.mine, speed := 3/5 }

/-- A drone one step away from the wall of a 3×3 grid. -/
def exDroneWall : DroneState :=
  { x := 5/2, z := 1, vx := 1, vz := 0, lastX := 2, lastZ := 1, speed := 1 }

/-- State on the freshly initialized 6×6 grid. -/
def exStateInit : GameState :=
  { level := 1, lives := 3, capturedPercent := 55, grid := Game.initGrid 6,
    enemies := [], trailCount := 0,
    drone := { x := 1, z := 1, vx := 0, vz := 0, lastX := 1, lastZ := 1, speed := 3/20 },
    paused := false }

/-! Basic facts about cells, bounds and 4-connectivity. -/

theorem mem_allCells {N : ℕ} {c : Pos} : c ∈ allCells N ↔ inBounds N c := by
  rcases c with ⟨x, z⟩
  simp only [allCells, inBounds, Finset.mem_product, Finset.mem_Icc]
  omega

theorem ucount_insert {N : ℕ} {vis : Finset Pos} {c : Pos}
    (hc : c ∈ allCells N) (hv : c ∉ vis) :
    ucount N (insert c vis) + 1 = ucount N vis := by
  unfold ucount
  have h1 : (allCells N).filter (fun d => d ∉ vis)
      = insert c ((allCells N).filter (fun d => d ∉ insert c vis)) := by
    ext d
    simp only [Finset.mem_insert, Finset.mem_filter]
    constructor
    · rintro ⟨hd, hdv⟩
      by_cases h : d = c
      · exact Or.inl h
      · exact Or.inr ⟨hd, by simp [Finset.mem_insert, h, hdv]⟩
    · rintro (rfl | ⟨hd, hdv⟩)
      · exact ⟨hc, hv⟩
      · exact ⟨hd, fun hdvis => hdv (Or.inr hdvis)⟩
  rw [h1, Finset.card_insert_of_not_mem (by simp [Finset.mem_filter])]

theorem ucount_le {N : ℕ} {vis : Finset Pos} : ucount N vis ≤ N * N := by
  calc ucount N vis ≤ (allCells N).card := Finset.card_filter_le _ _
    _ ≤ N * N := by
        simp only [allCells, Finset.card_product, Int.card_Icc]
        have : ((N : ℤ) - 1 + 1 - 0).toNat = N := by omega
        rw [this]

theorem mem_scanCells {N : ℕ} {c : Pos} : c ∈ FloodFill.scanCells N ↔ inBounds N c := by
  rcases c with ⟨x, z⟩
  constructor
  · intro h
    obtain ⟨y, hy, hc⟩ := List.mem_flatMap.1 h
    obtain ⟨x', hx', he⟩ := List.mem_map.1 hc
    rw [List.mem_range] at hy hx'
    injection he with e1 e2
    subst e1
    subst e2
    refine ⟨?_, ?_, ?_, ?_⟩ <;> simp only [Int.ofNat_eq_natCast] <;> omega
  · rintro ⟨h1, h2, h3, h4⟩
    refine List.mem_flatMap.2 ⟨z.toNat, List.mem_range.2 (by omega), ?_⟩
    refine List.mem_map.2 ⟨x.toNat, List.mem_range.2 (by omega), ?_⟩
    have e1 : Int.ofNat x.toNat = x := by simp only [Int.ofNat_eq_natCast]; omega
    have e2 : Int.ofNat z.toNat = z := by simp only [Int.ofNat_eq_natCast]; omega
    rw [e1, e2]

theorem nbrs_comm {c d : Pos} : d ∈ nbrs c ↔ c ∈ nbrs d := by
  rcases c with ⟨a, b⟩
  rcases d with ⟨u, v⟩
  simp only [nbrs, List.mem_cons, List.mem_singleton, Prod.mk.injEq, List.not_mem_nil, or_false]
  omega

theorem stepE_symm {N : ℕ} {g : ℤ → ℤ → Cell} {c d : Pos}
    (h : stepE N g c d) : stepE N g d c :=
  ⟨h.2.1, h.1, nbrs_comm.mp h.2.2⟩

theorem reachE_symm {N : ℕ} {g : ℤ → ℤ → Cell} {c d : Pos}
    (h : reachE N g c d) : reachE N g d c :=
  Relation.ReflTransGen.symmetric (fun _ _ hs => stepE_symm hs) h

theorem emptyCell_of_reachE {N : ℕ} {g : ℤ → ℤ → Cell} {c d : Pos}
    (hc : emptyCell N g c) (h : reachE N g c d) : emptyCell N g d := by
  induction h with
  | refl => exact hc
  | tail _ hstep _ => exact hstep.2.1

theorem reach_closed_of_step_closed {N : ℕ} {g : ℤ → ℤ → Cell} {vis : Finset Pos}
    (hcl : ∀ a b, a ∈ vis → stepE N g a b → b ∈ vis) {c d : Pos}
    (hc : c ∈ vis) (h : reachE N g c d) : d ∈ vis := by
  induction h with
  | refl => exact hc
  | tail _ hstep ih => exact hcl _ _ ih hstep

/-! Correctness of the BFS neighbour-processing loop. -/

theorem pushNbrs_spec (N : ℕ) (grid : ℤ → ℤ → Cell) (l : List Pos) :
    ∀ (vis : Finset Pos) (q : List Pos),
      ∃ pushed : List Pos,
        (FloodFill.pushNbrs N grid l vis q).2 = q ++ pushed ∧
        (∀ x, x ∈ (FloodFill.pushNbrs N grid l vis q).1 ↔ x ∈ vis ∨ x ∈ pushed) ∧
        (∀ x ∈ pushed, x ∈ l ∧ emptyCell N grid x ∧ x ∉ vis) ∧
        (∀ n ∈ l, emptyCell N grid n → n ∈ (FloodFill.pushNbrs N grid l vis q).1) ∧
        ucount N (FloodFill.pushNbrs N grid l vis q).1
          + (FloodFill.pushNbrs N grid l vis q).2.length = ucount N vis + q.length := by
  induction l with
  | nil =>
    intro vis q
    refine ⟨[], ?_⟩
    simp [FloodFill.pushNbrs]
  | cons n rest ih =>
    intro vis q
    by_cases hcond : inBounds N n ∧ grid n.2 n.1 = Cell.empty ∧ n ∉ vis
    · simp only [FloodFill.pushNbrs, if_pos hcond]
      obtain ⟨pushed, hq, hvis, hpush, hclose, hcount⟩ := ih (insert n vis) (q ++ [n])
      refine ⟨n :: pushed, ?_, ?_, ?_, ?_, ?_⟩
      · rw [hq]
        simp
      · intro x
        rw [hvis x, Finset.mem_insert, List.mem_cons]
        tauto
      · intro x hx
        rcases List.mem_cons.1 hx with rfl | hx2
        · exact ⟨List.mem_cons_self _ _, ⟨hcond.1, hcond.2.1⟩, hcond.2.2⟩
        · obtain ⟨h1, h2, h3⟩ := hpush x hx2
          exact ⟨List.mem_cons_of_mem _ h1, h2, fun hxv => h3 (Finset.mem_insert_of_mem hxv)⟩
      · intro m hm hemp
        rcases List.mem_cons.1 hm with rfl | hm2
        · exact (hvis m).2 (Or.inl (Finset.mem_insert_self _ _))
        · exact hclose m hm2 hemp
      · have hn : n ∈ allCells N := mem_allCells.2 hcond.1
        have := ucount_insert hn hcond.2.2
        rw [hcount]
        simp only [List.length_append, List.length_singleton]
        omega
    · simp only [FloodFill.pushNbrs, if_neg hcond]
      obtain ⟨pushed, hq, hvis, hpush, hclose, hcount⟩ := ih vis q
      refine ⟨pushed, hq, hvis, ?_, ?_, hcount⟩
      · intro x hx
        obtain ⟨h1, h2, h3⟩ := hpush x hx
        exact ⟨List.mem_cons_of_mem _ h1, h2, h3⟩
      · intro m hm hemp
        rcases List.mem_cons.1 hm with rfl | hm2
        · by_cases hv : m ∈ vis
          · exact (hvis m).2 (Or.inl hv)
          · exact absurd ⟨hemp.1, hemp.2, hv⟩ hcond
        · exact hclose m hm2 hemp

/-! Correctness of the BFS while-loop of the flood fill. -/

theorem bfs_done {N : ℕ} {grid : ℤ → ℤ → Cell} {es : List EnemyState} {s : Pos}
    {V0 vis : Finset Pos} {area : List Pos} {he : Bool}
    (hs : emptyCell N grid s)
    (hV0 : ∀ c, reachE N grid s c → c ∉ V0)
    (hvis : ∀ c, c ∈ vis ↔ c ∈ V0 ∨ c ∈ area ∨ c ∈ ([] : List Pos))
    (hmem : ∀ c, c ∈ area ∨ c ∈ ([] : List Pos) → reachE N grid s c)
    (hcl : ∀ c ∈ area, ∀ n ∈ nbrs c, emptyCell N grid n → n ∈ vis)
    (hhe : he = area.any (hostsEnemy es))
    (hseed : s ∈ area ∨ s ∈ ([] : List Pos)) :
    (∀ c, c ∈ area ↔ reachE N grid s c) ∧
    (he = true ↔ ∃ c, reachE N grid s c ∧ hostsEnemy es c = true) ∧
    (∀ c, c ∈ vis ↔ c ∈ V0 ∨ c ∈ area) := by
  have hseed2 : s ∈ area := by
    rcases hseed with h | h
    · exact h
    · simp at h
  have harea : ∀ c, c ∈ area ↔ reachE N grid s c := by
    intro c
    constructor
    · intro hc
      exact hmem c (Or.inl hc)
    · intro hr
      induction hr with
      | refl => exact hseed2
      | tail hreach hstep ih =>
        rename_i b2 c2
        have hv : c2 ∈ vis := hcl b2 ih c2 hstep.2.2 hstep.2.1
        rcases (hvis c2).1 hv with h0 | h1 | h2
        · exact absurd h0 (hV0 c2 (hreach.tail hstep))
        · exact h1
        · simp at h2
  refine ⟨harea, ?_, ?_⟩
  · rw [hhe, List.any_eq_true]
    constructor
    · rintro ⟨c, hc, hh⟩
      exact ⟨c, (harea c).1 hc, hh⟩
    · rintro ⟨c, hc, hh⟩
      exact ⟨c, (harea c).2 hc, hh⟩
  · intro c
    rw [hvis c]
    simp

theorem bfs_spec {N : ℕ} {grid : ℤ → ℤ → Cell} {es : List EnemyState} {s : Pos}
    {V0 : Finset Pos}
    (hs : emptyCell N grid s)
    (hV0 : ∀ c, reachE N grid s c → c ∉ V0) :
    ∀ (fuel : ℕ) (vis : Finset Pos) (q area : List Pos) (he : Bool),
      ucount N vis + q.length ≤ fuel →
      (∀ c, c ∈ vis ↔ c ∈ V0 ∨ c ∈ area ∨ c ∈ q) →
      (∀ c, c ∈ area ∨ c ∈ q → reachE N grid s c) →
      (∀ c ∈ area, ∀ n ∈ nbrs c, emptyCell N grid n → n ∈ vis) →
      (he = area.any (hostsEnemy es)) →
      (s ∈ area ∨ s ∈ q) →
      (∀ c, c ∈ (FloodFill.bfs N grid es fuel vis q area he).1 ↔ reachE N grid s c) ∧
      ((FloodFill.bfs N grid es fuel vis q area he).2.1 = true ↔
        ∃ c, reachE N grid s c ∧ hostsEnemy es c = true) ∧
      (∀ c, c ∈ (FloodFill.bfs N grid es fuel vis q area he).2.2 ↔
        c ∈ V0 ∨ c ∈ (FloodFill.bfs N grid es fuel vis q area he).1) := by
  intro fuel
  induction fuel with
  | zero =>
    intro vis q area he hfuel hvis hmem hcl hhe hseed
    have hq : q = [] := List.length_eq_zero.1 (by omega)
    subst hq
    exact bfs_done hs hV0 hvis hmem hcl hhe hseed
  | succ fuel ih =>
    intro vis q area he hfuel hvis hmem hcl hhe hseed
    match q with
    | [] =>
      exact bfs_done hs hV0 hvis hmem hcl hhe hseed
    | c :: rest =>
      show (∀ x, x ∈ (FloodFill.bfs N grid es fuel (FloodFill.pushNbrs N grid (nbrs c) vis rest).1
          (FloodFill.pushNbrs N grid (nbrs c) vis rest).2 (area ++ [c])
          (he || hostsEnemy es c)).1 ↔ reachE N grid s x) ∧ _ ∧ _
      obtain ⟨pushed, hq2, hvis2, hpush2, hclose2, hcount2⟩ :=
        pushNbrs_spec N grid (nbrs c) vis rest
      have hreachc : reachE N grid s c := hmem c (Or.inr (List.mem_cons_self _ _))
      have hemptyc : emptyCell N grid c := emptyCell_of_reachE hs hreachc
      refine ih (FloodFill.pushNbrs N grid (nbrs c) vis rest).1
        (FloodFill.pushNbrs N grid (nbrs c) vis rest).2 (area ++ [c])
        (he || hostsEnemy es c) ?_ ?_ ?_ ?_ ?_ ?_
      · rw [hcount2]
        simp only [List.length_cons] at hfuel
        omega
      · intro x
        rw [hvis2 x, hvis x, hq2]
        simp only [List.mem_append, List.mem_cons, List.mem_singleton]
        tauto
      · intro x hx
        have hx2 : x ∈ area ∨ x = c ∨ x ∈ rest ∨ x ∈ pushed := by
          rcases hx with hx | hx
          · rcases List.mem_append.1 hx with h | h
            · exact Or.inl h
            · exact Or.inr (Or.inl (List.mem_singleton.1 h))
          · rw [hq2] at hx
            rcases List.mem_append.1 hx with h | h
            · exact Or.inr (Or.inr (Or.inl h))
            · exact Or.inr (Or.inr (Or.inr h))
        rcases hx2 with h | rfl | h | h
        · exact hmem x (Or.inl h)
        · exact hreachc
        · exact hmem x (Or.inr (List.mem_cons_of_mem _ h))
        · obtain ⟨hn, hemp, _⟩ := hpush2 x h
          exact hreachc.tail ⟨hemptyc, hemp, hn⟩
      · intro x hx n hn hemp
        rcases List.mem_append.1 hx with h | h
        · exact (hvis2 n).2 (Or.inl (hcl x h n hn hemp))
        · have : x = c := List.mem_singleton.1 h
          subst this
          exact hclose2 n hn hemp
      · rw [hhe]
        simp [List.any_append]
      · rcases hseed with h | h
        · exact Or.inl (List.mem_append.2 (Or.inl h))
        · rcases List.mem_cons.1 h with rfl | h2
          · exact Or.inl (List.mem_append.2 (Or.inr (List.mem_singleton.2 rfl)))
          · refine Or.inr ?_
            rw [hq2]
            exact List.mem_append.2 (Or.inl h2)

/-! Correctness of the outer scan loop of the flood fill. -/

theorem fillLoop_spec {N : ℕ} {grid : ℤ → ℤ → Cell} {es : List EnemyState} :
    ∀ (ls : List Pos) (vis : Finset Pos) (areas : List (List Pos)),
      (∀ c ∈ vis, emptyCell N grid c) →
      (∀ a b, a ∈ vis → stepE N grid a b → b ∈ vis) →
      (∀ c, (∃ a ∈ areas, c ∈ a) ↔
        (c ∈ vis ∧ ¬ ∃ d, reachE N grid c d ∧ hostsEnemy es d = true)) →
      (∀ c, emptyCell N grid c → c ∈ vis ∨ c ∈ ls) →
      (∀ c ∈ ls, inBounds N c) →
      (∀ a ∈ areas, ∃ t, emptyCell N grid t ∧ ∀ c, c ∈ a ↔ reachE N grid t c) →
      (areas.Pairwise fun a b => ∀ c, c ∈ a → c ∉ b) →
      (∀ a ∈ areas, ∀ c ∈ a, c ∈ vis) →
      (∀ c, (∃ a ∈ (FloodFill.fillLoop N grid es ls vis areas).1, c ∈ a) ↔
        (emptyCell N grid c ∧ ¬ ∃ d, reachE N grid c d ∧ hostsEnemy es d = true)) ∧
      (∀ a ∈ (FloodFill.fillLoop N grid es ls vis areas).1,
        ∃ t, emptyCell N grid t ∧ ∀ c, c ∈ a ↔ reachE N grid t c) ∧
      ((FloodFill.fillLoop N grid es ls vis areas).1.Pairwise fun a b => ∀ c, c ∈ a → c ∉ b) := by
  intro ls
  induction ls with
  | nil =>
    intro vis areas hempty hclosed huni hcover _hbd hcomp hdisj hsub
    simp only [FloodFill.fillLoop]
    refine ⟨?_, hcomp, hdisj⟩
    intro c
    rw [huni c]
    have hcv : c ∈ vis ↔ emptyCell N grid c := by
      constructor
      · exact hempty c
      · intro he
        rcases hcover c he with h | h
        · exact h
        · simp at h
    rw [hcv]
  | cons c0 rest ih =>
    intro vis areas hempty hclosed huni hcover hbd hcomp hdisj hsub
    simp only [FloodFill.fillLoop]
    by_cases hcond : grid c0.2 c0.1 = Cell.empty ∧ c0 ∉ vis
    · rw [if_pos hcond]
      have hb0 : inBounds N c0 := hbd c0 (List.mem_cons_self _ _)
      have hs : emptyCell N grid c0 := ⟨hb0, hcond.1⟩
      have hV0 : ∀ c, reachE N grid c0 c → c ∉ vis := by
        intro c hr hc
        exact hcond.2 (reach_closed_of_step_closed hclosed hc (reachE_symm hr))
      have hR := @bfs_spec N grid es c0 vis hs hV0 (N * N) (insert c0 vis) [c0] [] false
        (by
          have h1 := ucount_insert (mem_allCells.2 hb0) hcond.2
          have h2 : ucount N vis ≤ N * N := ucount_le
          simp only [List.length_singleton]
          omega)
        (by
          intro c
          rw [Finset.mem_insert]
          simp only [List.not_mem_nil, List.mem_singleton, false_or]
          tauto)
        (by
          intro c hc
          simp only [List.not_mem_nil, List.mem_singleton, false_or] at hc
          subst hc
          exact Relation.ReflTransGen.refl)
        (by intro c hc; simp at hc)
        (by simp)
        (by simp)
      obtain ⟨hR1, hR2, hR3⟩ := hR
      set R := FloodFill.bfs N grid es (N * N) (insert c0 vis) [c0] [] false with hRdef
      have hRnotvis : ∀ x ∈ R.1, x ∉ vis := fun x hx => hV0 x ((hR1 x).1 hx)
      have hRempty : ∀ x ∈ R.1, emptyCell N grid x :=
        fun x hx => emptyCell_of_reachE hs ((hR1 x).1 hx)
      have hbadIff : ∀ x ∈ R.1,
          ((∃ d, reachE N grid x d ∧ hostsEnemy es d = true) ↔ R.2.1 = true) := by
        intro x hx
        have hrx : reachE N grid c0 x := (hR1 x).1 hx
        rw [hR2]
        constructor
        · rintro ⟨d, hd1, hd2⟩
          exact ⟨d, Relation.ReflTransGen.trans hrx hd1, hd2⟩
        · rintro ⟨d, hd1, hd2⟩
          exact ⟨d, Relation.ReflTransGen.trans (reachE_symm hrx) hd1, hd2⟩
      refine ih R.2.2 (if R.2.1 = true then areas else areas ++ [R.1]) ?_ ?_ ?_ ?_ ?_ ?_ ?_ ?_
      · intro c hc
        rcases (hR3 c).1 hc with h | h
        · exact hempty c h
        · exact hRempty c h
      · intro a b ha hstep
        rcases (hR3 a).1 ha with h | h
        · exact (hR3 b).2 (Or.inl (hclosed a b h hstep))
        · exact (hR3 b).2 (Or.inr ((hR1 b).2 (((hR1 a).1 h).tail hstep)))
      · intro c
        by_cases hcR : c ∈ R.1
        · have hbad := hbadIff c hcR
          by_cases hE : R.2.1 = true
          · rw [if_pos hE]
            constructor
            · rintro ⟨a, ha, hca⟩
              exact absurd (hsub a ha c hca) (hRnotvis c hcR)
            · rintro ⟨_, hnb⟩
              exact absurd (hbad.2 hE) hnb
          · rw [if_neg hE]
            constructor
            · intro _
              refine ⟨(hR3 c).2 (Or.inr hcR), fun hb => hE (hbad.1 hb)⟩
            · intro _
              exact ⟨R.1, List.mem_append.2 (Or.inr (List.mem_singleton.2 rfl)), hcR⟩
        · have hLHS : (∃ a ∈ (if R.2.1 = true then areas else areas ++ [R.1]), c ∈ a) ↔
              (∃ a ∈ areas, c ∈ a) := by
            by_cases hE : R.2.1 = true
            · rw [if_pos hE]
            · rw [if_neg hE]
              constructor
              · rintro ⟨a, ha, hca⟩
                rcases List.mem_append.1 ha with h | h
                · exact ⟨a, h, hca⟩
                · rw [List.mem_singleton.1 h] at hca
                  exact absurd hca hcR
              · rintro ⟨a, ha, hca⟩
                exact ⟨a, List.mem_append.2 (Or.inl ha), hca⟩
          rw [hLHS, huni c]
          have hcvis : c ∈ R.2.2 ↔ c ∈ vis := by
            rw [hR3 c]
            simp [hcR]
          rw [hcvis]
      · intro c hc
        rcases hcover c hc with h | h
        · exact Or.inl ((hR3 c).2 (Or.inl h))
        · rcases List.mem_cons.1 h with rfl | h2
          · exact Or.inl ((hR3 c).2 (Or.inr ((hR1 c).2 Relation.ReflTransGen.refl)))
          · exact Or.inr h2
      · intro c hc
        exact hbd c (List.mem_cons_of_mem _ hc)
      · intro a ha
        by_cases hE : R.2.1 = true
        · rw [if_pos hE] at ha
          exact hcomp a ha
        · rw [if_neg hE] at ha
          rcases List.mem_append.1 ha with h | h
          · exact hcomp a h
          · rw [List.mem_singleton.1 h]
            exact ⟨c0, hs, hR1⟩
      · by_cases hE : R.2.1 = true
        · rw [if_pos hE]
          exact hdisj
        · rw [if_neg hE]
          rw [List.pairwise_append]
          refine ⟨hdisj, List.pairwise_singleton _ _, ?_⟩
          intro a ha b hb c hca
          rw [List.mem_singleton.1 hb]
          intro hcb
          exact hRnotvis c hcb (hsub a ha c hca)
      · intro a ha c hca
        by_cases hE : R.2.1 = true
        · rw [if_pos hE] at ha
          exact (hR3 c).2 (Or.inl (hsub a ha c hca))
        · rw [if_neg hE] at ha
          rcases List.mem_append.1 ha with h | h
          · exact (hR3 c).2 (Or.inl (hsub a h c hca))
          · rw [List.mem_singleton.1 h] at hca
            exact (hR3 c).2 (Or.inr hca)
    · rw [if_neg hcond]
      refine ih vis areas hempty hclosed huni ?_ ?_ hcomp hdisj hsub
      · intro c hc
        rcases hcover c hc with h | h
        · exact Or.inl h
        · rcases List.mem_cons.1 h with rfl | h2
          · left
            by_contra hcv
            exact hcond ⟨hc.2, hcv⟩
          · exact Or.inr h2
      · intro c hc
        exact hbd c (List.mem_cons_of_mem _ hc)

theorem hostsEnemy_iff {es : List EnemyState} {d : Pos} :
    hostsEnemy es d = true ↔ ∃ e ∈ es, ((⌊e.x⌋ : ℤ), (⌊e.z⌋ : ℤ)) = d := by
  simp [hostsEnemy, List.any_eq_true, decide_eq_true_eq, Prod.ext_iff]

theorem reach_within {N : ℕ} {grid : ℤ → ℤ → Cell} {a : List Pos} {t : Pos}
    (hrep : ∀ c, c ∈ a ↔ reachE N grid t c) :
    ∀ c ∈ a, ∀ d ∈ a, Relation.ReflTransGen (fun u v => u ∈ a ∧ v ∈ a ∧ v ∈ nbrs u) c d := by
  intro c hc d hd
  have hcd : reachE N grid c d :=
    Relation.ReflTransGen.trans (reachE_symm ((hrep c).1 hc)) ((hrep d).1 hd)
  clear hd
  induction hcd with
  | refl => exact Relation.ReflTransGen.refl
  | tail hr hstep ih =>
    rename_i b2 c2
    have hb2 : b2 ∈ a := (hrep b2).2 (Relation.ReflTransGen.trans ((hrep c).1 hc) hr)
    have hc2 : c2 ∈ a :=
      (hrep c2).2 (Relation.ReflTransGen.trans ((hrep c).1 hc) (hr.tail hstep))
    exact ih.tail ⟨hb2, hc2, hstep.2.2⟩

/-- C1: Region solver correctness. For every grid and every list of hostile
entities, the union of the cell lists returned by FloodFill.getFillableAreas
is exactly the set of EMPTY cells that are not 4-connected to any EMPTY cell
containing some hostile entity's truncated position; every returned region is
internally 4-connected; and the returned regions are pairwise disjoint. -/
theorem getFillableAreas_correct (N : ℕ) (grid : ℤ → ℤ → Cell) (es : List EnemyState) :
    (∀ c : Pos, (∃ a ∈ FloodFill.getFillableAreas N grid es, c ∈ a) ↔
      (emptyCell N grid c ∧
        ¬ ∃ e ∈ es, emptyCell N grid ((⌊e.x⌋ : ℤ), (⌊e.z⌋ : ℤ)) ∧
          reachE N grid c ((⌊e.x⌋ : ℤ), (⌊e.z⌋ : ℤ)))) ∧
    (∀ a ∈ FloodFill.getFillableAreas N grid es, ∀ c ∈ a, ∀ d ∈ a,
      Relation.ReflTransGen (fun u v => u ∈ a ∧ v ∈ a ∧ v ∈ nbrs u) c d) ∧
    ((FloodFill.getFillableAreas N grid es).Pairwise fun a b => ∀ c, c ∈ a → c ∉ b) := by
  have H := @fillLoop_spec N grid es (FloodFill.scanCells N) ∅ []
    (by simp)
    (by simp)
    (by simp)
    (fun c hc => Or.inr (mem_scanCells.2 hc.1))
    (fun c hc => mem_scanCells.1 hc)
    (by simp)
    (by simp)
    (by simp)
  obtain ⟨H1, H2, H3⟩ := H
  simp only [FloodFill.getFillableAreas]
  refine ⟨?_, ?_, H3⟩
  · intro c
    rw [H1 c]
    constructor
    · rintro ⟨hce, hno⟩
      refine ⟨hce, ?_⟩
      rintro ⟨e, he, hee, her⟩
      exact hno ⟨_, her, hostsEnemy_iff.2 ⟨e, he, rfl⟩⟩
    · rintro ⟨hce, hno⟩
      refine ⟨hce, ?_⟩
      rintro ⟨d, hdr, hdh⟩
      obtain ⟨e, he, hed⟩ := hostsEnemy_iff.1 hdh
      subst hed
      exact hno ⟨e, he, emptyCell_of_reachE hce hdr, hdr⟩
  · intro a ha
    obtain ⟨t, _, hrep⟩ := H2 a ha
    exact reach_within hrep

/-- C1 witness: on the 6×6 grid with a 2×2 EMPTY block and no enemies, the
cell (2,2) belongs to some returned region. -/
theorem getFillableAreas_correct_witness :
    ∃ a ∈ FloodFill.getFillableAreas 6 exGrid [], ((2 : ℤ), (2 : ℤ)) ∈ a :=
  ((getFillableAreas_correct 6 exGrid []).1 ((2 : ℤ), (2 : ℤ))).2
    ⟨by decide, by simp⟩

/-! The controlled unit's motion. -/

theorem drone_update_inBox {N : ℕ} {d : DroneState}
    (h : Drone.inBox N d) : Drone.inBox N (Drone.update N d) := by
  unfold Drone.update
  by_cases hc : 0 ≤ d.x + d.vx ∧ d.x + d.vx < (N : ℚ) ∧ 0 ≤ d.z + d.vz ∧ d.z + d.vz < (N : ℚ)
  · rw [if_pos hc]
    exact ⟨hc.1, hc.2.1, hc.2.2.1, hc.2.2.2⟩
  · rw [if_neg hc]
    exact h

/-- C7: Controlled-unit boundary containment. If the tentative next position
leaves [0, N) on either axis the unit does not move on that step, and
consequently a unit starting inside the box stays inside it for every input
sequence. -/
theorem drone_boundary_containment (N : ℕ) (d : DroneState) :
    (¬ (0 ≤ d.x + d.vx ∧ d.x + d.vx < (N : ℚ) ∧ 0 ≤ d.z + d.vz ∧ d.z + d.vz < (N : ℚ)) →
      (Drone.update N d).x = d.x ∧ (Drone.update N d).z = d.z) ∧
    (∀ inputs : List (ℚ × ℚ), Drone.inBox N d →
      Drone.inBox N (Drone.run N d inputs)) := by
  constructor
  · intro h
    unfold Drone.update
    rw [if_neg h]
    exact ⟨rfl, rfl⟩
  · intro inputs
    induction inputs generalizing d with
    | nil => exact fun h => h
    | cons v rest ih =>
      intro h
      have h2 : Drone.inBox N { d with vx := v.1, vz := v.2 } := h
      exact ih _ (drone_update_inBox h2)

/-- C7 witness: on a 3×3 grid, a drone at x = 5/2 with velocity (1, 0) is
blocked by the wall, and a short run keeps the drone inside the box. -/
theorem drone_boundary_containment_witness :
    ¬ (0 ≤ exDroneWall.x + exDroneWall.vx ∧ exDroneWall.x + exDroneWall.vx < (3 : ℚ) ∧
        0 ≤ exDroneWall.z + exDroneWall.vz ∧ exDroneWall.z + exDroneWall.vz < (3 : ℚ)) ∧
    Drone.inBox 3 exDroneWall ∧
    ((Drone.update 3 exDroneWall).x = exDroneWall.x ∧
      (Drone.update 3 exDroneWall).z = exDroneWall.z) ∧
    Drone.inBox 3 (Drone.run 3 exDroneWall [(1, 0), (0, -1)]) :=
  ⟨by decide, by decide,
    (drone_boundary_containment 3 exDroneWall).1 (by decide),
    (drone_boundary_containment 3 exDroneWall).2 [(1, 0), (0, -1)] (by decide)⟩

/-! Hostile entity reflection. -/

/-- C6: Hostile entity reflection rules. For every position, velocity, kind
and grid, Enemy.update computes exactly the per-axis characterization of the
claim: a ball inverts a component iff the tentative cell on that axis is out
of bounds or the mixed-coordinate tested cell is OCCUPIED, a mine iff it is
out of bounds or anything other than OCCUPIED; the tentative position is
recomputed exactly once from the final velocity, and the entity always moves
to it. -/
theorem enemy_reflection_rules (N : ℕ) (grid : ℤ → ℤ → Cell) (e : EnemyState) :
    (e.kind = EnemyKind.ball → Enemy.update N grid e = Enemy.ballStepChar N grid e) ∧
    (e.kind = EnemyKind.mine → Enemy.update N grid e = Enemy.mineStepChar N grid e) := by
  constructor
  · intro hk
    unfold Enemy.update Enemy.ballStepChar
    rw [hk]
    simp only [Enemy.reflTest]
    by_cases h1 : ⌊e.x + e.vx⌋ < 0 ∨ (N : ℤ) ≤ ⌊e.x + e.vx⌋ ∨ grid ⌊e.z⌋ ⌊e.x + e.vx⌋ = Cell.occupied
    · by_cases h2 : ⌊e.z + e.vz⌋ < 0 ∨ (N : ℤ) ≤ ⌊e.z + e.vz⌋ ∨ grid ⌊e.z + e.vz⌋ ⌊e.x⌋ = Cell.occupied
      · simp [h1, h2]
      · simp [h1, h2]
    · by_cases h2 : ⌊e.z + e.vz⌋ < 0 ∨ (N : ℤ) ≤ ⌊e.z + e.vz⌋ ∨ grid ⌊e.z + e.vz⌋ ⌊e.x⌋ = Cell.occupied
      · simp [h1, h2]
      · simp [h1, h2]
  · intro hk
    unfold Enemy.update Enemy.mineStepChar
    rw [hk]
    simp only [Enemy.reflTest]
    by_cases h1 : ⌊e.x + e.vx⌋ < 0 ∨ (N : ℤ) ≤ ⌊e.x + e.vx⌋ ∨ ¬ grid ⌊e.z⌋ ⌊e.x + e.vx⌋ = Cell.occupied
    · by_cases h2 : ⌊e.z + e.vz⌋ < 0 ∨ (N : ℤ) ≤ ⌊e.z + e.vz⌋ ∨ ¬ grid ⌊e.z + e.vz⌋ ⌊e.x⌋ = Cell.occupied
      · simp [h1, h2]
      · simp [h1, h2]
    · by_cases h2 : ⌊e.z + e.vz⌋ < 0 ∨ (N : ℤ) ≤ ⌊e.z + e.vz⌋ ∨ ¬ grid ⌊e.z + e.vz⌋ ⌊e.x⌋ = Cell.occupied
      · simp [h1, h2]
      · simp [h1, h2]

/-- C6 witness: a ball and a mine at the same spot of a fully OCCUPIED grid;
the update of each coincides with its characterization (the ball reflects,
the mine does not). -/
theorem enemy_reflection_rules_witness :
    Enemy.update 6 exGridFull exBall = Enemy.ballStepChar 6 exGridFull exBall ∧
    Enemy.update 6 exGridFull exMine = Enemy.mineStepChar 6 exGridFull exMine ∧
    (Enemy.update 6 exGridFull exBall).vx = -(3/5) ∧
    (Enemy.update 6 exGridFull exMine).x = 31/10 :=
  ⟨(enemy_reflection_rules 6 exGridFull exBall).1 rfl,
   (enemy_reflection_rules 6 exGridFull exMine).2 rfl,
   by decide, by decide⟩

/-! The death event. -/

/-- C5 counterexample: the death event does reset the drone's velocity
intent; in a state with vx = 1/4 the velocity after Game.die differs from
the velocity before it. -/
theorem death_keeps_velocity_cex :
    exStateVel.drone.vx = 1/4 ∧ (Game.die 6 exStateVel).1.drone.vx = 0 ∧
    (Game.die 6 exStateVel).1.drone.vx ≠ exStateVel.drone.vx := by
  refine ⟨rfl, ?_, ?_⟩ <;> decide

/-- C5 amended: the death event resets the controlled unit's velocity
intent: after Game.die both velocity components are 0 (Drone.reset zeroes
them). -/
theorem death_resets_velocity (N : ℕ) (s : GameState) :
    (Game.die N s).1.drone.vx = 0 ∧ (Game.die N s).1.drone.vz = 0 := by
  unfold Game.die
  dsimp only
  refine ⟨?_, ?_⟩ <;> (split <;> rfl)

/-- C4: Death event semantics. Game.die emits exactly one death signal,
decrements lives by exactly 1, turns every in-bounds TRAIL cell EMPTY and
leaves all other cells unchanged, zeroes the trail counter, and repositions
the drone at (1,1); the drone's trail-crossing branch of the frame emits
exactly one death signal when it fires and none otherwise, and each
per-enemy check (contact radius, then current cell TRAIL on the grid left by
the first check) emits exactly one death signal per trigger that fires. -/
theorem death_event_semantics (N : ℕ) (s : GameState) (e : EnemyState) :
    (Game.die N s).1.lives = s.lives - 1 ∧
    Game.deathCount (Game.die N s).2 = 1 ∧
    (∀ z x : ℤ, (Game.die N s).1.grid z x =
      if inBounds N (x, z) ∧ s.grid z x = Cell.trail then Cell.empty else s.grid z x) ∧
    (Game.die N s).1.trailCount = 0 ∧
    (Game.die N s).1.drone.x = 1 ∧ (Game.die N s).1.drone.z = 1 ∧
    Game.deathCount (Game.dronePhase N s).2 =
      (if (⌊(Drone.update N s.drone).x⌋ ≠ s.drone.lastX ∨
            ⌊(Drone.update N s.drone).z⌋ ≠ s.drone.lastZ) ∧
          s.grid ⌊(Drone.update N s.drone).z⌋ ⌊(Drone.update N s.drone).x⌋ = Cell.trail
        then 1 else 0) ∧
    Game.deathCount (Game.enemyCollision N s e).2 =
      ((if (e.x - s.drone.x) * (e.x - s.drone.x) + (e.z - s.drone.z) * (e.z - s.drone.z) < 16/25
          then 1 else 0) +
       (if (if (e.x - s.drone.x) * (e.x - s.drone.x) + (e.z - s.drone.z) * (e.z - s.drone.z) < 16/25
              then (Game.die N s).1 else s).grid ⌊e.z⌋ ⌊e.x⌋ = Cell.trail
          then 1 else 0)) := by
  have hdieAll : ∀ t : GameState, Game.deathCount (Game.die N t).2 = 1 := by
    intro t
    unfold Game.die Game.deathCount
    dsimp only
    split <;> rfl
  have hlast : (Drone.update N s.drone).lastX = s.drone.lastX ∧
      (Drone.update N s.drone).lastZ = s.drone.lastZ := by
    unfold Drone.update
    dsimp only
    refine ⟨?_, ?_⟩ <;> (split <;> rfl)
  refine ⟨?_, hdieAll s, ?_, ?_, ?_, ?_, ?_, ?_⟩
  · unfold Game.die
    dsimp only
    split <;> rfl
  · intro z x
    unfold Game.die Game.clearTrail
    dsimp only
    split <;> rfl
  · unfold Game.die
    dsimp only
    split <;> rfl
  · unfold Game.die Drone.reset
    dsimp only
    split <;> rfl
  · unfold Game.die Drone.reset
    dsimp only
    split <;> rfl
  · unfold Game.dronePhase Game.cellCheck
    dsimp only
    rw [hlast.1, hlast.2]
    by_cases hch : ⌊(Drone.update N s.drone).x⌋ ≠ s.drone.lastX ∨
        ⌊(Drone.update N s.drone).z⌋ ≠ s.drone.lastZ
    · rw [if_pos hch]
      rcases hcell : s.grid ⌊(Drone.update N s.drone).z⌋ ⌊(Drone.update N s.drone).x⌋ with _ | _ | _
      · rw [if_pos rfl]
        rw [if_neg (by simp)]
        rfl
      · rw [if_neg (by decide), if_pos rfl]
        conv_rhs => rw [if_neg (by simp)]
        split
        · unfold Game.handleCapture Game.calculateCaptured Game.deathCount
          dsimp only
          split <;> rfl
        · rfl
      · rw [if_neg (by decide), if_neg (by decide)]
        rw [if_pos ⟨hch, rfl⟩]
        exact hdieAll _
    · rw [if_neg hch]
      rw [if_neg (by simp [hch])]
      rfl
  · unfold Game.enemyCollision
    dsimp only
    by_cases h1 : (e.x - s.drone.x) * (e.x - s.drone.x) + (e.z - s.drone.z) * (e.z - s.drone.z)
        < (16 : ℚ)/25
    · simp only [if_pos h1]
      by_cases h2 : (Game.die N s).1.grid ⌊e.z⌋ ⌊e.x⌋ = Cell.trail
      · simp only [if_pos h2]
        have e1 := hdieAll s
        have e2 := hdieAll (Game.die N s).1
        unfold Game.deathCount at e1 e2 ⊢
        rw [List.count_append, e1, e2]
      · simp only [if_neg h2]
        have e1 := hdieAll s
        unfold Game.deathCount at e1 ⊢
        rw [List.count_append, e1]
        rfl
    · simp only [if_neg h1]
      by_cases h2 : s.grid ⌊e.z⌋ ⌊e.x⌋ = Cell.trail
      · simp only [if_pos h2]
        have e1 := hdieAll s
        unfold Game.deathCount at e1 ⊢
        rw [List.count_append, e1]
        rfl
      · simp only [if_neg h2]
        rfl

/-! The capture event. -/

/-- C3 counterexample: a capture event run in a state with trail counter 0,
no TRAIL cell anywhere and a stored percentage matching the grid still
changes the grid and the percentage, because an enemy-free EMPTY region
exists and is filled. -/
theorem capture_trail0_not_noop_cex :
    exStateRegion.trailCount = 0 ∧
    exStateRegion.grid 2 2 = Cell.empty ∧
    (Game.handleCapture 6 exStateRegion).1.grid 2 2 = Cell.occupied ∧
    exStateRegion.capturedPercent = Game.capturedPercentOf 6 exStateRegion.grid ∧
    (Game.handleCapture 6 exStateRegion).1.capturedPercent ≠ exStateRegion.capturedPercent := by
  refine ⟨rfl, ?_, ?_, ?_, ?_⟩ <;> decide

/-- C3 amended: a capture event run with trail counter 0 and no TRAIL cell
is a no-op on the grid and the captured percentage provided the region
solver returns no region (every EMPTY region contains a hostile entity) and
the stored percentage matches the grid; without the no-region condition the
event fills the enemy-free regions (see the counterexample). -/
theorem capture_trail0_noop (N : ℕ) (s : GameState)
    (h0 : s.trailCount = 0)
    (h1 : ∀ z x : ℤ, inBounds N (x, z) → s.grid z x ≠ Cell.trail)
    (h2 : FloodFill.getFillableAreas N s.grid s.enemies = [])
    (h3 : s.capturedPercent = Game.capturedPercentOf N s.grid) :
    (Game.handleCapture N s).1.grid = s.grid ∧
    (Game.handleCapture N s).1.capturedPercent = s.capturedPercent ∧
    (Game.handleCapture N s).1.trailCount = s.trailCount := by
  have hg : Game.convertTrail N
      (Game.applyAreas (FloodFill.getFillableAreas N s.grid s.enemies) s.grid) = s.grid := by
    rw [h2]
    funext z x
    unfold Game.applyAreas Game.convertTrail
    dsimp only
    have hemp : ¬ ∃ a ∈ ([] : List (List Pos)), (x, z) ∈ a := by simp
    rw [if_neg hemp]
    by_cases hb : inBounds N (x, z) ∧ s.grid z x = Cell.trail
    · exact absurd hb.2 (h1 z x hb.1)
    · rw [if_neg hb]
  unfold Game.handleCapture Game.calculateCaptured
  dsimp only
  rw [hg, h0]
  split <;> exact ⟨rfl, h3.symm, rfl⟩

/-- C3 witness: on the fully OCCUPIED grid the region solver returns no
region and the capture event changes neither the grid nor the percentage
nor the trail counter. -/
theorem capture_trail0_noop_witness :
    (Game.handleCapture 6 exStateFull).1.grid = exStateFull.grid ∧
    (Game.handleCapture 6 exStateFull).1.capturedPercent = exStateFull.capturedPercent ∧
    (Game.handleCapture 6 exStateFull).1.trailCount = exStateFull.trailCount :=
  capture_trail0_noop 6 exStateFull rfl
    (fun _ _ _ h => Cell.noConfusion h) (by decide) (by decide)

/-! The captured percentage and the level-complete signal. -/

theorem occupiedCount_le {N : ℕ} {g : ℤ → ℤ → Cell} : Game.occupiedCount N g ≤ N * N := by
  calc Game.occupiedCount N g ≤ (allCells N).card := Finset.card_filter_le _ _
    _ ≤ N * N := by
        simp only [allCells, Finset.card_product, Int.card_Icc]
        have : ((N : ℤ) - 1 + 1 - 0).toNat = N := by omega
        rw [this]

/-- C8: Captured percentage and Level Complete. The captured percentage is
the floor of occupiedCells / N² × 100, an integer in 0..100; the threshold
constant is 80 and is not level-dependent; Game.calculateCaptured stores
exactly this percentage and emits the level-complete signal exactly when it
is at least 80. -/
theorem captured_percent_levelComplete (N : ℕ) (s : GameState) :
    Game.capturedPercentOf N s.grid
        = ⌊(Game.occupiedCount N s.grid : ℚ) / ((N : ℚ) * (N : ℚ)) * 100⌋ ∧
    0 ≤ Game.capturedPercentOf N s.grid ∧
    Game.capturedPercentOf N s.grid ≤ 100 ∧
    TARGET_PERCENT = 80 ∧
    (Game.calculateCaptured N s).1.capturedPercent = Game.capturedPercentOf N s.grid ∧
    (Signal.levelComplete ∈ (Game.calculateCaptured N s).2 ↔
      80 ≤ Game.capturedPercentOf N s.grid) := by
  have hql : (0 : ℚ) ≤ (Game.occupiedCount N s.grid : ℚ) / ((N : ℚ) * (N : ℚ)) * 100 := by
    positivity
  have hqu : (Game.occupiedCount N s.grid : ℚ) / ((N : ℚ) * (N : ℚ)) * 100 ≤ 100 := by
    rcases Nat.eq_zero_or_pos N with hN | hN
    · subst hN
      norm_num
    · have hNQ : (0 : ℚ) < (N : ℚ) * (N : ℚ) := by positivity
      have hle : (Game.occupiedCount N s.grid : ℚ) ≤ (N : ℚ) * (N : ℚ) := by
        have h1 : (Game.occupiedCount N s.grid : ℚ) ≤ ((N * N : ℕ) : ℚ) := by
          exact_mod_cast occupiedCount_le
        rw [Nat.cast_mul] at h1
        exact h1
      have : (Game.occupiedCount N s.grid : ℚ) / ((N : ℚ) * (N : ℚ)) ≤ 1 :=
        (div_le_one hNQ).2 hle
      calc (Game.occupiedCount N s.grid : ℚ) / ((N : ℚ) * (N : ℚ)) * 100
          ≤ 1 * 100 := by
            apply mul_le_mul_of_nonneg_right this
            norm_num
        _ = 100 := by norm_num
  refine ⟨rfl, ?_, ?_, rfl, ?_, ?_⟩
  · exact Int.floor_nonneg.2 hql
  · calc Game.capturedPercentOf N s.grid ≤ ⌊(100 : ℚ)⌋ := Int.floor_le_floor hqu
      _ = 100 := by norm_num
  · unfold Game.calculateCaptured
    dsimp only
    split <;> rfl
  · unfold Game.calculateCaptured
    dsimp only
    split
    · rename_i h
      exact iff_of_true (List.mem_singleton.2 rfl) h
    · rename_i h
      exact iff_of_false (List.not_mem_nil _) h

theorem drone_update_last {N : ℕ} {d : DroneState} :
    (Drone.update N d).lastX = d.lastX ∧ (Drone.update N d).lastZ = d.lastZ := by
  unfold Drone.update
  dsimp only
  refine ⟨?_, ?_⟩ <;> (split <;> rfl)

/-- C2: Capture event semantics. On a tick where the moved drone's integer
cell differs from the last recorded cell, that cell is OCCUPIED and the
trail counter is positive, the drone phase runs the region solver on the
current grid and entities, marks every returned region OCCUPIED, then
converts every TRAIL cell to OCCUPIED, zeroes the trail counter and
recomputes the captured percentage from the resulting grid, in that order;
the enemies then run on the resulting state. -/
theorem capture_event_semantics (N : ℕ) (s : GameState)
    (hp : s.paused = false)
    (hch : ⌊(Drone.update N s.drone).x⌋ ≠ s.drone.lastX ∨
      ⌊(Drone.update N s.drone).z⌋ ≠ s.drone.lastZ)
    (hocc : s.grid ⌊(Drone.update N s.drone).z⌋ ⌊(Drone.update N s.drone).x⌋ = Cell.occupied)
    (htc : 0 < s.trailCount) :
    (Game.dronePhase N s).1.grid
        = Game.convertTrail N
            (Game.applyAreas (FloodFill.getFillableAreas N s.grid s.enemies) s.grid) ∧
    (Game.dronePhase N s).1.trailCount = 0 ∧
    (Game.dronePhase N s).1.capturedPercent
        = Game.capturedPercentOf N
            (Game.convertTrail N
              (Game.applyAreas (FloodFill.getFillableAreas N s.grid s.enemies) s.grid)) ∧
    (Game.dronePhase N s).1.enemies = s.enemies ∧
    Signal.capture ∈ (Game.dronePhase N s).2 ∧
    Game.animateTick N s
        = ((Game.enemiesPhase N (Game.dronePhase N s).1).1,
           (Game.dronePhase N s).2 ++ (Game.enemiesPhase N (Game.dronePhase N s).1).2) := by
  have htick : Game.animateTick N s
      = ((Game.enemiesPhase N (Game.dronePhase N s).1).1,
         (Game.dronePhase N s).2 ++ (Game.enemiesPhase N (Game.dronePhase N s).1).2) := by
    unfold Game.animateTick
    rw [hp]
    rfl
  refine ⟨?_, ?_, ?_, ?_, ?_, htick⟩ <;>
  · unfold Game.dronePhase Game.cellCheck
    dsimp only
    rw [drone_update_last.1, drone_update_last.2, if_pos hch,
      if_neg (by rw [hocc]; decide), if_pos hocc, if_pos htc]
    unfold Game.handleCapture Game.calculateCaptured
    dsimp only
    split <;> simp

/-- C2 witness: a concrete 6×6 state with a one-cell trail whose drone
crosses into an OCCUPIED cell; the capture event is triggered and behaves as
stated. -/
theorem capture_event_semantics_witness :
    (Game.dronePhase 6 exStateCapture).1.grid
        = Game.convertTrail 6
            (Game.applyAreas
              (FloodFill.getFillableAreas 6 exStateCapture.grid exStateCapture.enemies)
              exStateCapture.grid) ∧
    (Game.dronePhase 6 exStateCapture).1.trailCount = 0 ∧
    (Game.dronePhase 6 exStateCapture).1.capturedPercent
        = Game.capturedPercentOf 6
            (Game.convertTrail 6
              (Game.applyAreas
                (FloodFill.getFillableAreas 6 exStateCapture.grid exStateCapture.enemies)
                exStateCapture.grid)) ∧
    (Game.dronePhase 6 exStateCapture).1.enemies = exStateCapture.enemies ∧
    Signal.capture ∈ (Game.dronePhase 6 exStateCapture).2 ∧
    Game.animateTick 6 exStateCapture
        = ((Game.enemiesPhase 6 (Game.dronePhase 6 exStateCapture).1).1,
           (Game.dronePhase 6 exStateCapture).2
             ++ (Game.enemiesPhase 6 (Game.dronePhase 6 exStateCapture).1).2) :=
  capture_event_semantics 6 exStateCapture rfl (by decide) (by decide) (by decide)

/-! Intra-tick ordering. -/

/-- C9 counterexample: on the state exStateOrder the implemented tick leaves
cell (3,3) EMPTY (the region solver saw the ball still inside the region,
before its motion), while the motion-first ordering demanded by the claim
captures it; so motion is not fully resolved before the capture and death
checks run. -/
theorem tick_order_cex :
    (Game.animateTick 8 exStateOrder).1.grid 3 3 = Cell.empty ∧
    (Game.tickSpecMotionFirst 8 exStateOrder).1.grid 3 3 = Cell.occupied := by
  refine ⟨?_, ?_⟩ <;> decide

/-- C9 amended: within a tick the drone moves and its cell-based capture and
death logic runs first — on the entity list as it was before any entity
motion — and only then does each hostile entity in list order move and
immediately undergo its collision and trail checks. -/
theorem tick_order_semantics (N : ℕ) (s : GameState) (hp : s.paused = false) :
    (Game.dronePhase N s).1.enemies = s.enemies ∧
    Game.animateTick N s
      = ((Game.enemiesPhase N (Game.dronePhase N s).1).1,
         (Game.dronePhase N s).2 ++ (Game.enemiesPhase N (Game.dronePhase N s).1).2) := by
  constructor
  · unfold Game.dronePhase Game.cellCheck
    dsimp only
    split
    · split
      · rfl
      · split
        · split
          · unfold Game.handleCapture Game.calculateCaptured
            dsimp only
            split <;> rfl
          · rfl
        · unfold Game.die
          dsimp only
          split <;> rfl
    · rfl
  · unfold Game.animateTick
    rw [hp]
    rfl

/-- C9 witness: the amended ordering at a concrete unpaused state. -/
theorem tick_order_semantics_witness :
    (Game.dronePhase 6 exStateFull).1.enemies = exStateFull.enemies ∧
    Game.animateTick 6 exStateFull
      = ((Game.enemiesPhase 6 (Game.dronePhase 6 exStateFull).1).1,
         (Game.dronePhase 6 exStateFull).2
           ++ (Game.enemiesPhase 6 (Game.dronePhase 6 exStateFull).1).2) :=
  tick_order_semantics 6 exStateFull rfl

/-! The border invariant. -/

theorem borderOccupied_initGrid (N : ℕ) : borderOccupied N (Game.initGrid N) := by
  intro z x hb hbord
  unfold Game.initGrid
  rw [if_pos ⟨hb, hbord⟩]

theorem borderOccupied_applyAreas {N : ℕ} {areas : List (List Pos)} {g : ℤ → ℤ → Cell}
    (h : borderOccupied N g) : borderOccupied N (Game.applyAreas areas g) := by
  intro z x hb hbord
  unfold Game.applyAreas
  split
  · rfl
  · exact h z x hb hbord

theorem borderOccupied_convertTrail {N : ℕ} {g : ℤ → ℤ → Cell}
    (h : borderOccupied N g) : borderOccupied N (Game.convertTrail N g) := by
  intro z x hb hbord
  unfold Game.convertTrail
  split
  · rfl
  · exact h z x hb hbord

theorem borderOccupied_clearTrail {N : ℕ} {g : ℤ → ℤ → Cell}
    (h : borderOccupied N g) : borderOccupied N (Game.clearTrail N g) := by
  intro z x hb hbord
  unfold Game.clearTrail
  split
  · rename_i hc
    rw [h z x hb hbord] at hc
    exact absurd hc.2 (by decide)
  · exact h z x hb hbord

theorem borderOccupied_die {N : ℕ} {s : GameState}
    (h : borderOccupied N s.grid) : borderOccupied N (Game.die N s).1.grid := by
  unfold Game.die
  dsimp only
  split
  · exact borderOccupied_clearTrail h
  · exact borderOccupied_clearTrail h

theorem borderOccupied_handleCapture {N : ℕ} {s : GameState}
    (h : borderOccupied N s.grid) : borderOccupied N (Game.handleCapture N s).1.grid := by
  unfold Game.handleCapture Game.calculateCaptured
  dsimp only
  split
  · exact borderOccupied_convertTrail (borderOccupied_applyAreas h)
  · exact borderOccupied_convertTrail (borderOccupied_applyAreas h)

theorem borderOccupied_cellCheck {N : ℕ} {s : GameState}
    (h : borderOccupied N s.grid) : borderOccupied N (Game.cellCheck N s).1.grid := by
  unfold Game.cellCheck
  dsimp only
  split
  · split
    · rename_i hcell
      intro z x hb hbord
      dsimp only
      split
      · rename_i hzx
        rw [hzx.1, hzx.2] at hbord hb
        rw [h _ _ hb hbord] at hcell
        exact absurd hcell (by decide)
      · exact h z x hb hbord
    · split
      · split
        · exact borderOccupied_handleCapture h
        · exact h
      · exact borderOccupied_die h
  · exact h

theorem borderOccupied_dronePhase {N : ℕ} {s : GameState}
    (h : borderOccupied N s.grid) : borderOccupied N (Game.dronePhase N s).1.grid := by
  unfold Game.dronePhase
  exact borderOccupied_cellCheck h

theorem borderOccupied_enemyCollision {N : ℕ} {s : GameState} {e : EnemyState}
    (h : borderOccupied N s.grid) :
    borderOccupied N (Game.enemyCollision N s e).1.grid := by
  unfold Game.enemyCollision
  dsimp only
  split
  · split
    · exact borderOccupied_die (borderOccupied_die h)
    · exact borderOccupied_die h
  · split
    · exact borderOccupied_die h
    · exact h

theorem borderOccupied_enemyFold {N : ℕ} (l : List EnemyState) :
    ∀ (acc : GameState × List Signal × List EnemyState),
      borderOccupied N acc.1.grid →
      borderOccupied N (l.foldl
        (fun acc e =>
          let p := Game.processEnemy N acc.1 e
          (p.1.1, acc.2.1 ++ p.1.2, acc.2.2 ++ [p.2])) acc).1.grid := by
  induction l with
  | nil => exact fun acc h => h
  | cons e rest ih =>
    intro acc h
    exact ih _ (borderOccupied_enemyCollision h)

theorem borderOccupied_enemiesPhase {N : ℕ} {s : GameState}
    (h : borderOccupied N s.grid) : borderOccupied N (Game.enemiesPhase N s).1.grid := by
  unfold Game.enemiesPhase
  dsimp only
  exact borderOccupied_enemyFold s.enemies (s, [], []) h

theorem borderOccupied_tick {N : ℕ} {s : GameState}
    (h : borderOccupied N s.grid) : borderOccupied N (Game.animateTick N s).1.grid := by
  unfold Game.animateTick
  dsimp only
  split
  · exact h
  · exact borderOccupied_enemiesPhase (borderOccupied_dronePhase h)

/-- C10: Border invariant. The outer two-cell-thick border is OCCUPIED in
the freshly initialized grid, every frame of the game loop preserves this
(trail laying only changes EMPTY cells, capture and trail conversion only
write OCCUPIED, trail clearing only changes TRAIL cells), and hence the
border stays OCCUPIED over any run of frames with arbitrary velocity
inputs. -/
theorem border_invariant (N : ℕ) :
    borderOccupied N (Game.initGrid N) ∧
    (∀ s : GameState, borderOccupied N s.grid →
      borderOccupied N (Game.animateTick N s).1.grid) ∧
    (∀ (inputs : List (ℚ × ℚ)) (s : GameState), borderOccupied N s.grid →
      borderOccupied N (Game.runWith N inputs s).grid) := by
  refine ⟨borderOccupied_initGrid N, fun s h => borderOccupied_tick h, ?_⟩
  intro inputs
  induction inputs with
  | nil => exact fun s h => h
  | cons v rest ih =>
    intro s h
    exact ih _ (borderOccupied_tick h)

/-- C10 witness: after one frame on the freshly initialized 6×6 grid the
corner cell is still OCCUPIED. -/
theorem border_invariant_witness :
    (Game.runWith 6 [(1/5, 0)] exStateInit).grid 0 0 = Cell.occupied :=
  (border_invariant 6).2.2 [(1/5, 0)] exStateInit (border_invariant 6).1 0 0
    (by decide) (by decide)

end X1
